import Mathlib

/-!
Verification of the email-invoice-manager core (`src/main.go`) against its
specification.  Go strings are modelled as `List Char` (the inputs of interest
are sequences of Unicode code points; Go string indexing by byte and our
indexing by element coincide on the ASCII data all claims concern, and every
definition below is stated uniformly over `List Char`).  Fallible Go code is
modelled with `Option`; a Go runtime panic (out-of-range slice, nil
dereference) is a distinguished result constructor, never an undefined value.
-/

/-- Go `strings.HasPrefix pat s` test: does `pat` lead the list `s`?
(Implements the prefix test used by `strings.Index`.) -/
def leadsWith : List Char → List Char → Bool
  | [], _ => true
  | _ :: _, [] => false
  | p :: ps, c :: cs => p = c && leadsWith ps cs

/-- Position of the first occurrence of `pat` in `s`, if any. -/
def goIndexAux (pat : List Char) : List Char → Option Nat
  | [] => if leadsWith pat [] then some 0 else none
  | c :: t =>
    if leadsWith pat (c :: t) then some 0
    else (goIndexAux pat t).map (· + 1)

/-- Go `strings.Index(s, pat)`: index of the first occurrence of `pat` in `s`,
`-1` when `pat` does not occur (and `0` for the empty pattern). -/
def goIndex (s pat : List Char) : Int :=
  match goIndexAux pat s with
  | some n => (n : Int)
  | none => -1

/-- Go `strings.Contains(s, pat)`. -/
def goContains (s pat : List Char) : Bool :=
  (goIndexAux pat s).isSome

/-- Go string slicing `s[i:j]`: defined (`some`) exactly when
`0 ≤ i ≤ j ≤ len s`; out of that range Go panics, modelled as `none`. -/
def goSlice (s : List Char) (i j : Int) : Option (List Char) :=
  if 0 ≤ i ∧ i ≤ j ∧ j ≤ (s.length : Int) then
    some ((s.drop i.toNat).take (j.toNat - i.toNat))
  else none

/-- Go `strings.Trim(s, cutset)`: strips from both ends the maximal runs of
characters belonging to `cutset`. -/
def goTrim (s cutset : List Char) : List Char :=
  (((s.dropWhile fun c => decide (c ∈ cutset)).reverse.dropWhile
      fun c => decide (c ∈ cutset)).reverse)

/-- Go `strings.Replace(s, ",", "", 1)`: removes the first comma only. -/
def removeFirstComma : List Char → List Char
  | [] => []
  | c :: t => if c = ',' then t else c :: removeFirstComma t

/-- The cutset literal of `extractPriceBetweenTwoStrings` in `src/main.go`:
space, newline, tab, the euro sign and all ASCII letters. -/
def trimSet : List Char :=
  " \n\t€abcdefghijklmnopqrstuvwxyzABCDEFGHIJKLMNOPQRSTUVWXYZ".toList

/-- Value of a decimal digit string (most significant digit first). -/
def digitsVal (s : List Char) : Nat :=
  s.foldl (fun a c => 10 * a + (c.toNat - 48)) 0

/-- Go `strconv.ParseUint(s, 10, 16)` followed by the caller's error check:
`some` exactly on non-empty all-ASCII-digit strings whose value fits in 16
bits (at most 65535); `none` on a syntax error or overflow. -/
def parseUint16 (s : List Char) : Option Nat :=
  if s ≠ [] ∧ (s.all fun c => c.isDigit) then
    if digitsVal s ≤ 65535 then some (digitsVal s) else none
  else none

/-- Steps 4–6 of the amount parser applied to the raw field between the two
anchors: trim, remove the first comma, parse as a 16-bit unsigned integer. -/
def parseAmountField (euros : List Char) : Option Nat :=
  parseUint16 (removeFirstComma (goTrim euros trimSet))

/-- Result of `extractPriceBetweenTwoStrings`: a value, a
`strconv.ParseUint` error (`InvalidAmountFormat`), or a Go runtime panic. -/
inductive PriceResult where
  | ok (v : Nat)
  | parseError
  | panic
deriving DecidableEq, Repr

/-- Outcome of the trim/comma-removal/parse tail of the extractor. -/
def parseFieldResult (euros : List Char) : PriceResult :=
  match parseAmountField euros with
  | some v => PriceResult.ok v
  | none => PriceResult.parseError

/-- `extractPriceBetweenTwoStrings` from `src/main.go`: locate `f`, then
locate `s` after it, take the substring in between, trim it, drop the first
comma and parse the rest with `strconv.ParseUint(_, 10, 16)`.  The index
arithmetic is reproduced exactly: when an anchor is missing, `strings.Index`
returns `-1` and the subsequent slice may be out of range, which is a Go
panic. -/
def extractPriceBetweenTwoStrings (haystack f s : List Char) : PriceResult :=
  match goSlice haystack (goIndex haystack f + f.length) haystack.length with
  | none => PriceResult.panic
  | some tail =>
    match goSlice haystack (goIndex haystack f + f.length)
        (goIndex haystack f + f.length + goIndex tail s) with
    | none => PriceResult.panic
    | some euros => parseFieldResult euros

/-- C1: the spec requires `AnchorNotFound` (never a panic) for absent anchors,
and flags the reference implementation's unchecked index arithmetic as a bug.
The code indeed panics: with `before = "A"` present but `after = "B"` absent,
`strings.Index` yields `-1` and the slice `haystack[1:0]` is out of range;
with `before = "a"` absent from `"x"`, the second index is again `-1` and the
slice `haystack[0:-1]` is out of range. -/
theorem extract_price_missing_anchor_panics :
    extractPriceBetweenTwoStrings "A12".toList "A".toList "B".toList
      = PriceResult.panic
    ∧ extractPriceBetweenTwoStrings "x".toList "a".toList "b".toList
      = PriceResult.panic := by
  decide

/-- Slicing with in-range `Nat` endpoints is take-after-drop. -/
theorem goSlice_of_nat (s : List Char) (i j : Nat) (hij : i ≤ j)
    (hj : j ≤ s.length) :
    goSlice s (i : Int) (j : Int) = some ((s.drop i).take (j - i)) := by
  unfold goSlice
  rw [if_pos ⟨by exact_mod_cast Nat.zero_le i, by exact_mod_cast hij,
      by exact_mod_cast hj⟩]
  simp

/-- When the first anchor `f` first occurs right after `p` and the second
anchor `s` first occurs (within the remainder) right after `field`, the
extractor reduces to the trim/comma/parse tail applied to `field`. -/
theorem extract_anchored (p f field s rest : List Char)
    (h1 : goIndex (p ++ (f ++ (field ++ (s ++ rest)))) f = p.length)
    (h2 : goIndex (field ++ (s ++ rest)) s = field.length) :
    extractPriceBetweenTwoStrings (p ++ (f ++ (field ++ (s ++ rest)))) f s
      = parseFieldResult field := by
  have hass : p ++ (f ++ (field ++ (s ++ rest)))
      = (p ++ f) ++ (field ++ (s ++ rest)) := by
    simp [List.append_assoc]
  have hlen : (p ++ (f ++ (field ++ (s ++ rest)))).length
      = p.length + f.length + (field.length + (s.length + rest.length)) := by
    simp [List.length_append]
    omega
  have hc1 : ((p.length : Int) + (f.length : Int))
      = ((p.length + f.length : Nat) : Int) := by push_cast; ring
  have hc2 : ((p.length : Int) + (f.length : Int) + (field.length : Int))
      = ((p.length + f.length + field.length : Nat) : Int) := by push_cast; ring
  have hdrop : (p ++ (f ++ (field ++ (s ++ rest)))).drop (p.length + f.length)
      = field ++ (s ++ rest) := by
    rw [hass, List.drop_left' (by simp [List.length_append])]
  have slice1 : goSlice (p ++ (f ++ (field ++ (s ++ rest))))
      ((p.length : Int) + (f.length : Int))
      (((p ++ (f ++ (field ++ (s ++ rest)))).length : Nat) : Int)
      = some (field ++ (s ++ rest)) := by
    rw [hc1, goSlice_of_nat _ _ _ (by omega) (by omega)]
    rw [hdrop]
    congr 1
    have hl : (p ++ (f ++ (field ++ (s ++ rest)))).length - (p.length + f.length)
        = (field ++ (s ++ rest)).length := by
      simp [List.length_append]; omega
    rw [hl, List.take_length]
  have slice2 : goSlice (p ++ (f ++ (field ++ (s ++ rest))))
      ((p.length : Int) + (f.length : Int))
      ((p.length : Int) + (f.length : Int) + (field.length : Int))
      = some field := by
    rw [hc2, hc1, goSlice_of_nat _ _ _ (by omega) (by omega)]
    rw [hdrop]
    congr 1
    have hl : p.length + f.length + field.length - (p.length + f.length)
        = field.length := by omega
    rw [hl]
    exact List.take_left' rfl
  simp only [extractPriceBetweenTwoStrings, h1, slice1, h2, slice2]

/-- A list whose elements all fail the predicate is unchanged by `dropWhile`. -/
theorem dropWhile_eq_self_of_none (P : Char → Bool) :
    ∀ l : List Char, (∀ c ∈ l, P c = false) → l.dropWhile P = l
  | [], _ => rfl
  | c :: t, h => by
    have hc := h c (List.mem_cons_self c t)
    simp [List.dropWhile_cons, hc]

/-- Trimming is the identity on strings containing no cutset character. -/
theorem goTrim_eq_self {s cutset : List Char} (h : ∀ c ∈ s, c ∉ cutset) :
    goTrim s cutset = s := by
  unfold goTrim
  have h1 : s.dropWhile (fun c => decide (c ∈ cutset)) = s :=
    dropWhile_eq_self_of_none _ s (fun c hc => by simp [h c hc])
  have h2 : s.reverse.dropWhile (fun c => decide (c ∈ cutset)) = s.reverse :=
    dropWhile_eq_self_of_none _ s.reverse
      (fun c hc => by simp [h c (List.mem_reverse.mp hc)])
  rw [h1, h2, List.reverse_reverse]

/-- No character of the extractor's trim cutset is an ASCII digit. -/
theorem trimSet_no_digit : ∀ c ∈ trimSet, c.isDigit = false := by decide

/-- The comma is not in the extractor's trim cutset. -/
theorem comma_notin_trimSet : ',' ∉ trimSet := by decide

/-- Digits survive the extractor's trimming. -/
theorem digit_notin_trimSet {c : Char} (h : c.isDigit = true) : c ∉ trimSet :=
  fun hc => by rw [trimSet_no_digit c hc] at h; cases h

/-- Removing the first comma from `a ++ "," ++ b` with comma-free `a`
concatenates `a` and `b`. -/
theorem removeFirstComma_append {a : List Char} (b : List Char)
    (h : ',' ∉ a) : removeFirstComma (a ++ ',' :: b) = a ++ b := by
  induction a with
  | nil => simp [removeFirstComma]
  | cons c t ih =>
    have hc : ¬ c = ',' := fun e => h (e ▸ List.mem_cons_self c t)
    have ih' := ih (fun hm => h (List.mem_cons_of_mem _ hm))
    simp only [List.cons_append, removeFirstComma, if_neg hc]
    show c :: removeFirstComma (t ++ ',' :: b) = c :: (t ++ b)
    rw [ih']

/-- A string still containing a comma fails 16-bit unsigned parsing. -/
theorem parseUint16_none_of_comma {l : List Char} (h : ',' ∈ l) :
    parseUint16 l = none := by
  unfold parseUint16
  rw [if_neg]
  rintro ⟨-, hall⟩
  have := List.all_eq_true.mp hall ',' h
  exact absurd this (by decide)

/-- C2 fails as stated: with haystack `"A999,99B"`, before `"A"` and after
`"B"`, the flat concatenation `"99999"` names the integer 99999, but
`strconv.ParseUint(_, 10, 16)` overflows 16 bits, so the extractor reports an
`InvalidAmountFormat` error instead of returning 99999. -/
theorem extract_price_overflow_counterexample :
    extractPriceBetweenTwoStrings "A999,99B".toList "A".toList "B".toList
      = PriceResult.parseError
    ∧ extractPriceBetweenTwoStrings "A999,99B".toList "A".toList "B".toList
      ≠ PriceResult.ok 99999 := by
  decide

/-- C2 (amended): for every haystack containing
`before ++ digits1 ++ "," ++ digits2 ++ after` with both anchors first
occurring exactly there, the extractor returns the value of the flat
concatenation of `digits1` and `digits2` provided that value is at most
65535 (beyond that `ParseUint` overflows and the call fails). -/
theorem extract_price_flat_concatenation
    (p f d1 d2 s rest : List Char)
    (h1 : goIndex (p ++ (f ++ ((d1 ++ ',' :: d2) ++ (s ++ rest)))) f
        = p.length)
    (h2 : goIndex ((d1 ++ ',' :: d2) ++ (s ++ rest)) s
        = (d1 ++ ',' :: d2).length)
    (hd1 : ∀ c ∈ d1, c.isDigit = true) (hd2 : ∀ c ∈ d2, c.isDigit = true)
    (hne : d1 ++ d2 ≠ [])
    (hle : digitsVal (d1 ++ d2) ≤ 65535) :
    extractPriceBetweenTwoStrings
        (p ++ (f ++ ((d1 ++ ',' :: d2) ++ (s ++ rest)))) f s
      = PriceResult.ok (digitsVal (d1 ++ d2)) := by
  rw [extract_anchored p f (d1 ++ ',' :: d2) s rest h1 h2]
  have htrim : goTrim (d1 ++ ',' :: d2) trimSet = d1 ++ ',' :: d2 :=
    goTrim_eq_self (fun c hc => by
      rcases List.mem_append.mp hc with hm | hm
      · exact digit_notin_trimSet (hd1 c hm)
      · rcases List.mem_cons.mp hm with rfl | hm
        · exact comma_notin_trimSet
        · exact digit_notin_trimSet (hd2 c hm))
  have hrm : removeFirstComma (d1 ++ ',' :: d2) = d1 ++ d2 :=
    removeFirstComma_append d2
      (fun hm => absurd (hd1 ',' hm) (by decide))
  have hall : ((d1 ++ d2).all fun c => c.isDigit) = true := by
    rw [List.all_eq_true]
    intro c hc
    rcases List.mem_append.mp hc with hm | hm
    · exact hd1 c hm
    · exact hd2 c hm
  unfold parseFieldResult parseAmountField
  rw [htrim, hrm]
  unfold parseUint16
  rw [if_pos ⟨hne, hall⟩, if_pos hle]

/-- C2 witness: the spec's own example, `"Total: 12,34 EUR"` with anchors
`"Total: "` and `" EUR"`, yields 1234 cents. -/
theorem extract_price_flat_concatenation_witness :
    extractPriceBetweenTwoStrings "Total: 12,34 EUR".toList
      "Total: ".toList " EUR".toList = PriceResult.ok 1234 :=
  extract_price_flat_concatenation [] "Total: ".toList "12".toList
    "34".toList " EUR".toList [] (by decide) (by decide) (by decide)
    (by decide) (by decide) (by decide)

/-- C7: an amount field that still contains a comma after removal of the
first one makes the extractor fail with `InvalidAmountFormat` (first
conjunct), and only the first comma is ever removed (second conjunct). -/
theorem second_comma_invalid_amount :
    (∀ p f field s rest : List Char,
        goIndex (p ++ (f ++ (field ++ (s ++ rest)))) f = p.length →
        goIndex (field ++ (s ++ rest)) s = field.length →
        ',' ∈ removeFirstComma (goTrim field trimSet) →
        extractPriceBetweenTwoStrings (p ++ (f ++ (field ++ (s ++ rest)))) f s
          = PriceResult.parseError)
    ∧ (∀ a b : List Char, ',' ∉ a →
        removeFirstComma (a ++ ',' :: b) = a ++ b) := by
  constructor
  · intro p f field s rest h1 h2 hcomma
    rw [extract_anchored p f field s rest h1 h2]
    unfold parseFieldResult parseAmountField
    rw [parseUint16_none_of_comma hcomma]
  · exact fun a b h => removeFirstComma_append b h

/-- C7 witness: `"1,234,56"` between anchors `"X"` and `"Y"` fails, since
after removing only the first comma the remainder `"1234,56"` still holds a
comma; and the removal on `"12,34"` yields exactly `"1234"`. -/
theorem second_comma_invalid_amount_witness :
    extractPriceBetweenTwoStrings "X1,234,56Y".toList "X".toList "Y".toList
      = PriceResult.parseError
    ∧ removeFirstComma "12,34".toList = "1234".toList :=
  ⟨second_comma_invalid_amount.1 [] "X".toList "1,234,56".toList "Y".toList []
      (by decide) (by decide) (by decide),
    second_comma_invalid_amount.2 "12".toList "34".toList (by decide)⟩

/-- Successful 16-bit parsing is bounded by 65535. -/
theorem parseUint16_le {l : List Char} {v : Nat}
    (h : parseUint16 l = some v) : v ≤ 65535 := by
  unfold parseUint16 at h
  by_cases h1 : l ≠ [] ∧ (l.all fun c => c.isDigit) = true
  · rw [if_pos h1] at h
    by_cases h2 : digitsVal l ≤ 65535
    · rw [if_pos h2] at h
      injection h with h3
      subst h3
      exact h2
    · rw [if_neg h2] at h
      simp at h
  · rw [if_neg h1] at h
    simp at h

/-- A successful field parse comes from a successful 16-bit parse. -/
theorem parseFieldResult_ok {l : List Char} {v : Nat}
    (h : parseFieldResult l = PriceResult.ok v) :
    parseUint16 (removeFirstComma (goTrim l trimSet)) = some v := by
  unfold parseFieldResult parseAmountField at h
  split at h
  · injection h with h2
    subst h2
    assumption
  · exact PriceResult.noConfusion h

/-- C8: every successful extraction fits in 16 bits (at most 65535), and the
post-processing parser rejects empty input, any non-digit character, and any
value exceeding 65535. -/
theorem amount_fits_uint16 :
    (∀ h f s : List Char, ∀ v : Nat,
        extractPriceBetweenTwoStrings h f s = PriceResult.ok v → v ≤ 65535)
    ∧ (∀ cents : List Char,
        (cents = [] ∨ (∃ c ∈ cents, c.isDigit = false)
            ∨ 65535 < digitsVal cents) →
        parseUint16 cents = none) := by
  constructor
  · intro h f s v hv
    unfold extractPriceBetweenTwoStrings at hv
    split at hv
    · exact PriceResult.noConfusion hv
    · split at hv
      · exact PriceResult.noConfusion hv
      · exact parseUint16_le (parseFieldResult_ok hv)
  · intro cents h
    unfold parseUint16
    rcases h with rfl | ⟨c, hc, hcd⟩ | hgt
    · simp
    · rw [if_neg]
      rintro ⟨-, hall⟩
      rw [List.all_eq_true.mp hall c hc] at hcd
      cases hcd
    · split
      · rw [if_neg (by omega)]
      · rfl

/-- C8 witness: `"A1,23B"` with anchors `"A"`/`"B"` succeeds with 123, which
is at most 65535; and the five-digit string `"99999"` exceeds 16 bits and is
rejected. -/
theorem amount_fits_uint16_witness :
    (123 : Nat) ≤ 65535 ∧ parseUint16 "99999".toList = none :=
  ⟨amount_fits_uint16.1 "A1,23B".toList "A".toList "B".toList 123 (by decide),
    amount_fits_uint16.2 "99999".toList (Or.inr (Or.inr (by decide)))⟩

/-- Code points accepted by Go `unicode.IsSpace` (the White_Space property),
used by `strings.TrimSpace`. -/
def spaceCodes : List Nat :=
  [9, 10, 11, 12, 13, 32, 0x85, 0xA0, 0x1680,
   0x2000, 0x2001, 0x2002, 0x2003, 0x2004, 0x2005, 0x2006, 0x2007,
   0x2008, 0x2009, 0x200A, 0x2028, 0x2029, 0x202F, 0x205F, 0x3000]

/-- Go `unicode.IsSpace`. -/
def goIsSpace (c : Char) : Bool :=
  spaceCodes.contains c.toNat

/-- Go `strings.TrimSpace`. -/
def goTrimSpace (s : List Char) : List Char :=
  ((s.dropWhile goIsSpace).reverse.dropWhile goIsSpace).reverse

/-- Tokens of the `golang.org/x/net/html` tokenizer, as consumed by
`extractTextFromHtml`: the payload of a start/end/self-closing tag token is
its `Token().Data` tag name, the payload of a text token is its raw text.
(Tokenization itself is the external library; the repository's loop consumes
the stream.) -/
inductive Token where
  | startTag (name : List Char)
  | endTag (name : List Char)
  | selfClosingTag (name : List Char)
  | commentTok (data : List Char)
  | doctypeTok (data : List Char)
  | text (content : List Char)
deriving DecidableEq, Repr

/-- The token loop of `extractTextFromHtml` in `src/main.go`.  The second
argument is `previousStartTokenTest.Data`: the tag name of the most recently
seen start-tag token (initially the zero token's empty `Data`).  Only
start-tag tokens update it; a text token is dropped when it is `"script"` or
`"style"`, otherwise the unescaped, whitespace-trimmed text is appended with
a newline when non-empty.  `unescape` models the external
`html.UnescapeString`. -/
def extractLoop (unescape : List Char → List Char) :
    List Token → List Char → List Char
  | [], _ => []
  | Token.startTag n :: ts, _ => extractLoop unescape ts n
  | Token.text s :: ts, prev =>
    if prev = "script".toList ∨ prev = "style".toList then
      extractLoop unescape ts prev
    else
      let txt := goTrimSpace (unescape s)
      if 0 < txt.length then txt ++ '\n' :: extractLoop unescape ts prev
      else extractLoop unescape ts prev
  | _ :: ts, prev => extractLoop unescape ts prev

/-- `extractTextFromHtml` from `src/main.go`, parametrised by the external
tokenizer and unescaper of `golang.org/x/net/html`. -/
def extractTextFromHtml (unescape : List Char → List Char)
    (tokenize : List Char → List Token) (input : List Char) : List Char :=
  extractLoop unescape (tokenize input) []

/-- Modelled from the spec: pairs every text token, in document order, with
the tag name of the most recently opened start tag before it (the empty name
when none precedes it). -/
def annotate : List Char → List Token → List (List Char × List Char)
  | _, [] => []
  | _, Token.startTag n :: ts => annotate n ts
  | prev, Token.text s :: ts => (prev, s) :: annotate prev ts
  | prev, _ :: ts => annotate prev ts

/-- Modelled from the spec: the output line contributed by one text token,
given the most recently opened start tag: dropped under `script`/`style`,
dropped when it trims to empty, otherwise the trimmed unescaped text plus a
newline. -/
def renderLine (unescape : List Char → List Char) :
    List Char × List Char → Option (List Char)
  | (prev, s) =>
    if prev = "script".toList ∨ prev = "style".toList then none
    else
      let t := goTrimSpace (unescape s)
      if t = [] then none else some (t ++ ['\n'])

/-- Modelled from the spec: document-order concatenation of the per-text-token
lines. -/
def extractTextSpec (unescape : List Char → List Char)
    (tokens : List Token) : List Char :=
  ((annotate [] tokens).filterMap (renderLine unescape)).flatten

/-- The loop agrees with the annotate/render description for any value of the
most-recently-opened-start-tag register. -/
theorem extractLoop_eq_spec (unescape : List Char → List Char) :
    ∀ (ts : List Token) (prev : List Char),
      extractLoop unescape ts prev
        = ((annotate prev ts).filterMap (renderLine unescape)).flatten
  | [], _ => rfl
  | Token.startTag n :: ts, prev => by
    simp only [extractLoop, annotate]
    exact extractLoop_eq_spec unescape ts n
  | Token.endTag n :: ts, prev => by
    simp only [extractLoop, annotate]
    exact extractLoop_eq_spec unescape ts prev
  | Token.selfClosingTag n :: ts, prev => by
    simp only [extractLoop, annotate]
    exact extractLoop_eq_spec unescape ts prev
  | Token.commentTok d :: ts, prev => by
    simp only [extractLoop, annotate]
    exact extractLoop_eq_spec unescape ts prev
  | Token.doctypeTok d :: ts, prev => by
    simp only [extractLoop, annotate]
    exact extractLoop_eq_spec unescape ts prev
  | Token.text s :: ts, prev => by
    by_cases hg : prev = "script".toList ∨ prev = "style".toList
    · have hr : renderLine unescape (prev, s) = none := by
        simp only [renderLine]
        rw [if_pos hg]
      simp only [extractLoop, annotate, if_pos hg]
      rw [List.filterMap_cons_none hr]
      exact extractLoop_eq_spec unescape ts prev
    · by_cases ht : goTrimSpace (unescape s) = []
      · have hr : renderLine unescape (prev, s) = none := by
          simp only [renderLine]
          rw [if_neg hg, if_pos ht]
        have hlen : ¬ 0 < (goTrimSpace (unescape s)).length := by
          rw [ht]; simp
        simp only [extractLoop, annotate, if_neg hg, if_neg hlen]
        rw [List.filterMap_cons_none hr]
        exact extractLoop_eq_spec unescape ts prev
      · have hr : renderLine unescape (prev, s)
            = some (goTrimSpace (unescape s) ++ ['\n']) := by
          simp only [renderLine]
          rw [if_neg hg, if_neg ht]
        have hlen : 0 < (goTrimSpace (unescape s)).length :=
          List.length_pos.mpr ht
        simp only [extractLoop, annotate, if_neg hg, if_pos hlen]
        rw [List.filterMap_cons_some hr]
        rw [List.flatten_cons]
        rw [extractLoop_eq_spec unescape ts prev]
        simp [List.append_assoc]

/-- C5 fails as stated: a whitespace-only text token (outside
`script`/`style`) trims to the empty string, and the code appends nothing —
not an empty line.  The claim's "appended followed by a newline, one output
line per text node" would predict the output `"\n"`. -/
theorem html_blank_text_counterexample :
    extractTextFromHtml (fun s => s) (fun _ => [Token.text [' ']]) [] = []
    ∧ extractTextFromHtml (fun s => s) (fun _ => [Token.text [' ']]) []
      ≠ ['\n'] := by
  constructor
  · rfl
  · decide

/-- C5 (amended): text extraction walks tokens in document order and drops
exactly the text tokens whose most recently opened start tag is `script` or
`style` or whose unescaped text trims to empty; every other text token
contributes its unescaped, whitespace-trimmed text followed by a newline, in
document order. -/
theorem extract_text_html_characterization
    (unescape : List Char → List Char) (tokenize : List Char → List Token)
    (input : List Char) :
    extractTextFromHtml unescape tokenize input
      = extractTextSpec unescape (tokenize input) :=
  extractLoop_eq_spec unescape (tokenize input) []

/-- One `gmail.MessagePartHeader`: a name/value pair. -/
structure Header where
  name : List Char
  value : List Char
deriving DecidableEq, Repr

/-- The `Body` of a `gmail.MessagePart` when it is non-nil: `AttachmentId`
and `Data`. -/
structure PartBody where
  attachmentId : List Char
  data : List Char
deriving DecidableEq, Repr

/-- One `gmail.MessagePart`: MIME type, filename (empty when inline) and an
optional body (`none` models a nil `Body` pointer). -/
structure MessagePart where
  mimeType : List Char
  filename : List Char
  body : Option PartBody
deriving DecidableEq, Repr

/-- One fetched mail message as the pipeline sees it: internal timestamp in
Unix milliseconds, header list, part list, and the mailbox collaborator's
attachment store (`AttachmentId ↦ already-base64url-decoded bytes`, the
interface boundary of `Users.Messages.Attachments.Get`; a missing entry
models a failed fetch or decode). -/
structure Message where
  internalDate : Int
  headers : List Header
  parts : List MessagePart
  attachments : List (List Char × List Char)
deriving DecidableEq, Repr

/-- A `Source` record of the configuration (`from` is renamed `fromAddr`
because `from` is reserved in Lean). -/
structure Source where
  billName : List Char
  fromAddr : List Char
  subjectContains : List Char
  location : List Char
  stringBeforePrice : List Char
  stringAfterPrice : List Char
deriving DecidableEq, Repr

/-- An `Invoice` record (`Value` in cents, unbounded `Nat` here; the parser
itself already guarantees it fits 16 bits). -/
structure Invoice where
  fileName : List Char
  fileContents : List Char
  value : Nat
deriving DecidableEq, Repr

/-- External collaborators used inside the per-message step: base64url
decoding of a body (`none` = decode error), the HTML tokenizer and unescaper
of `golang.org/x/net/html`, and the external `pdftotext` renderer
(`none` = renderer error). -/
structure Env where
  decode : List Char → Option (List Char)
  tokenize : List Char → List Token
  unescape : List Char → List Char
  renderPdf : List Char → Option (List Char)

/-- Is a part the HTML body candidate (`part.MimeType == "text/html"`)? -/
def isHtmlPart (p : MessagePart) : Bool :=
  decide (p.mimeType = "text/html".toList)

/-- Does a part carry an attachment content reference
(`part.Body != nil && part.Body.AttachmentId != ""`)? -/
def hasAttachRef (p : MessagePart) : Bool :=
  match p.body with
  | some b => decide (b.attachmentId ≠ [])
  | none => false

/-- The attachment-branch condition of the part-selection loop
(`part.Filename != "" && part.Body != nil && part.Body.AttachmentId != ""`). -/
def isAttachmentCandidate (p : MessagePart) : Bool :=
  decide (p.filename ≠ []) && hasAttachRef p

/-- The part-selection loop of `scrapeEmailInvoices` in `src/main.go`:
a single pass over the parts with two accumulators, `bodyPart` and
`attachmentPart`; note the two branches are joined by `else if`. -/
def findParts : List MessagePart → Option MessagePart → Option MessagePart →
    Option MessagePart × Option MessagePart
  | [], b, a => (b, a)
  | p :: ps, b, a =>
    if b.isNone && isHtmlPart p then findParts ps (some p) a
    else if a.isNone && isAttachmentCandidate p then findParts ps b (some p)
    else findParts ps b a

/-- The subject-header loop of `scrapeEmailInvoices`: first header literally
named `Subject` whose value contains the configured substring. -/
def findSubjectHeader (headers : List Header) (needle : List Char) :
    Option Header :=
  headers.find? fun h =>
    decide (h.name = "Subject".toList) && goContains h.value needle

/-- Does a message qualify for a rule: a matching `Subject` header exists and
the part scan selected an attachment part (the two `continue` guards of the
message loop)? -/
def qualifies (msg : Message) (source : Source) : Bool :=
  (findSubjectHeader msg.headers source.subjectContains).isSome
    && ((findParts msg.parts none none).2).isSome

/-- The window re-validation of the message loop:
`internalDate.Before(month) || internalDate.After(nextMonth)`. -/
def outsideWindow (t mstart mstop : Int) : Bool :=
  decide (t < mstart) || decide (mstop < t)

/-- Association lookup in the modelled attachment store. -/
def lookupAttachment : List (List Char × List Char) → List Char →
    Option (List Char)
  | [], _ => none
  | (k, v) :: rest, id0 => if k = id0 then some v else lookupAttachment rest id0

/-- Outcome of processing one message inside the per-rule loop: a fatal
`log.Fatalf` exit, a Go runtime panic, a `continue` (skip), or a recorded
invoice followed by `break`. -/
inductive StepResult where
  | fatal
  | panicked
  | skip
  | success (inv : Invoice)
deriving DecidableEq, Repr

/-- Mapping from the price extractor's result to the end of the message step:
an extraction error is fatal, success records the invoice
(`billName + ".pdf"`, the attachment bytes, the parsed cents). -/
def stepOfPrice (r : PriceResult) (fileName attachmentBytes : List Char) :
    StepResult :=
  match r with
  | PriceResult.ok v => StepResult.success ⟨fileName, attachmentBytes, v⟩
  | PriceResult.parseError => StepResult.fatal
  | PriceResult.panic => StepResult.panicked

/-- The `switch source.Location` of the message loop: `"body"` requires a
body part (else fatal) and decodes and HTML-extracts it; `"attachment"`
renders the PDF's first page; any other value takes no branch, leaving
`invoiceText` as the zero value `""`. -/
def invoiceTextFor (env : Env) (source : Source) (bp : Option MessagePart)
    (attachmentBytes : List Char) : Except StepResult (List Char) :=
  if source.location = "body".toList then
    match bp with
    | none => Except.error StepResult.fatal
    | some bpart =>
      match bpart.body with
      | none => Except.error StepResult.panicked
      | some bpb =>
        match env.decode bpb.data with
        | none => Except.error StepResult.fatal
        | some decoded =>
          Except.ok (extractTextFromHtml env.unescape env.tokenize decoded)
  else if source.location = "attachment".toList then
    match env.renderPdf attachmentBytes with
    | none => Except.error StepResult.fatal
    | some txt => Except.ok txt
  else Except.ok []

/-- One iteration of the message loop of `scrapeEmailInvoices` for one
candidate message: window re-validation (fatal when outside), subject check
(`continue` when absent), part selection, attachment requirement (`continue`
when absent), attachment fetch (fatal on error), text selection per
`source.Location` and amount extraction. -/
def stepMessage (env : Env) (source : Source) (mstart mstop : Int)
    (msg : Message) : StepResult :=
  if outsideWindow msg.internalDate mstart mstop then StepResult.fatal
  else
    match findSubjectHeader msg.headers source.subjectContains with
    | none => StepResult.skip
    | some _ =>
      match (findParts msg.parts none none).2 with
      | none => StepResult.skip
      | some ap =>
        match ap.body with
        | none => StepResult.panicked
        | some apb =>
          match lookupAttachment msg.attachments apb.attachmentId with
          | none => StepResult.fatal
          | some attachmentBytes =>
            match invoiceTextFor env source (findParts msg.parts none none).1
                attachmentBytes with
            | Except.error r => r
            | Except.ok invoiceText =>
              stepOfPrice
                (extractPriceBetweenTwoStrings invoiceText
                  source.stringBeforePrice source.stringAfterPrice)
                (source.billName ++ ".pdf".toList) attachmentBytes

/-- Outcome of the whole per-rule message loop. -/
inductive RunOutcome where
  | fatal
  | panicked
  | skipped
  | invoice (inv : Invoice)
deriving DecidableEq, Repr

/-- The per-rule message loop: messages are visited in list order; a fatal
error or panic aborts, a skip moves on, and the first successful message
records its invoice and `break`s out of the loop. -/
def processMessages (env : Env) (source : Source) (mstart mstop : Int) :
    List Message → RunOutcome
  | [] => RunOutcome.skipped
  | m :: rest =>
    match stepMessage env source mstart mstop m with
    | StepResult.fatal => RunOutcome.fatal
    | StepResult.panicked => RunOutcome.panicked
    | StepResult.skip => processMessages env source mstart mstop rest
    | StepResult.success inv => RunOutcome.invoice inv

/-- Modelled from the spec (amended C3): the attachment actually selected is
the first attachment-qualifying part that is not at that moment consumed as
the body — because the two branches are joined by `else if`, a part recorded
as body is never considered for the attachment role.  The Boolean argument
records whether the body role is already filled. -/
def firstFreeAttachment : List MessagePart → Bool → Option MessagePart
  | [], _ => none
  | p :: ps, bodyTaken =>
    if !bodyTaken && isHtmlPart p then firstFreeAttachment ps true
    else if isAttachmentCandidate p then some p
    else firstFreeAttachment ps bodyTaken

/-- Accumulator-general characterization of the part-selection loop: the body
accumulator ends as the first `text/html` part (independently of the
attachment accumulator), the attachment accumulator as the first free
attachment candidate. -/
theorem findParts_general :
    ∀ (l : List MessagePart) (b a : Option MessagePart),
      findParts l b a
        = ((match b with | some x => some x | none => l.find? isHtmlPart),
           (match a with
            | some y => some y
            | none => firstFreeAttachment l b.isSome))
  | [], b, a => by cases b <;> cases a <;> rfl
  | p :: ps, b, a => by
    have ih1 := findParts_general ps (some p) a
    have ih2 := findParts_general ps b (some p)
    have ih3 := findParts_general ps b a
    cases b <;> cases a <;>
      by_cases hh : isHtmlPart p = true <;>
      by_cases hc : isAttachmentCandidate p = true <;>
      simp_all [findParts, firstFreeAttachment, List.find?_cons]

/-- Specialization to the loop's initial accumulators. -/
theorem findParts_none_none (parts : List MessagePart) :
    findParts parts none none
      = (parts.find? isHtmlPart, firstFreeAttachment parts false) := by
  simpa using findParts_general parts none none

/-- C3 fails as stated: a part that is simultaneously `text/html` and an
attachment candidate is taken by the body branch, and the `else if` prevents
it from ever being considered for the attachment role, so the roles are not
assigned independently: the claim predicts this part (the first — indeed
only — attachment candidate) as the attachment, but none is selected. -/
theorem find_parts_coupling_counterexample :
    isAttachmentCandidate
        ⟨"text/html".toList, "a.pdf".toList, some ⟨"att1".toList, []⟩⟩ = true
    ∧ (findParts
        [⟨"text/html".toList, "a.pdf".toList, some ⟨"att1".toList, []⟩⟩]
        none none).2 = none := by
  decide

/-- C3 (amended): one in-order scan assigns the body role to the first
`text/html` part (this one independently of the attachment role), while the
attachment role goes to the first attachment-qualifying part not consumed as
the body; later matches of either role are ignored. -/
theorem find_parts_characterization (parts : List MessagePart) :
    findParts parts none none
      = (parts.find? isHtmlPart, firstFreeAttachment parts false) :=
  findParts_none_none parts

/-- An environment with trivial collaborators (failing decoder and renderer,
empty tokenization), used to exercise the control flow around them. -/
def envTriv : Env :=
  ⟨fun _ => none, fun _ => [], fun s => s, fun _ => none⟩

/-- A source record with all fields empty. -/
def srcEmpty : Source := ⟨[], [], [], [], [], []⟩

/-- A message whose timestamp sits exactly at the window end. -/
def msgAtEnd : Message := ⟨100, [], [], []⟩

/-- C4 fails as stated: the code checks
`internalDate.Before(month) || internalDate.After(nextMonth)`, both strict,
so a message exactly at `windowEnd` is not treated as fatal — here it is
processed on (and skipped for lack of a subject header), though the claim's
half-open window `[windowStart, windowEnd)` predicts a fatal error. -/
theorem window_end_not_fatal_counterexample :
    msgAtEnd.internalDate = 100
    ∧ stepMessage envTriv srcEmpty 0 100 msgAtEnd = StepResult.skip
    ∧ stepMessage envTriv srcEmpty 0 100 msgAtEnd ≠ StepResult.fatal := by
  refine ⟨rfl, rfl, ?_⟩
  decide

/-- C4 (amended): the re-validation uses the closed window
`[windowStart, windowEnd]`: a timestamp strictly before the start or strictly
after the end is a fatal error (never a silent skip), while a timestamp
exactly at `windowEnd` passes the check. -/
theorem window_check_closed_interval (env : Env) (source : Source)
    (mstart mstop : Int) (msg : Message) :
    (outsideWindow msg.internalDate mstart mstop = true
      ↔ (msg.internalDate < mstart ∨ mstop < msg.internalDate))
    ∧ (msg.internalDate < mstart ∨ mstop < msg.internalDate →
        stepMessage env source mstart mstop msg = StepResult.fatal) := by
  have hiff : outsideWindow msg.internalDate mstart mstop = true
      ↔ (msg.internalDate < mstart ∨ mstop < msg.internalDate) := by
    simp [outsideWindow]
  refine ⟨hiff, fun h => ?_⟩
  unfold stepMessage
  rw [if_pos (by exact_mod_cast hiff.mpr h)]

/-- A message strictly after the window end. -/
def msgLate : Message := ⟨101, [], [], []⟩

/-- C4 witness: a timestamp strictly beyond the window end is fatal. -/
theorem window_check_closed_interval_witness :
    stepMessage envTriv srcEmpty 0 100 msgLate = StepResult.fatal :=
  (window_check_closed_interval envTriv srcEmpty 0 100 msgLate).2
    (Or.inr (by decide))

/-- A selected free attachment is a member of the part list and satisfies the
attachment condition. -/
theorem firstFreeAttachment_some :
    ∀ (l : List MessagePart) (bt : Bool) (p : MessagePart),
      firstFreeAttachment l bt = some p →
      p ∈ l ∧ isAttachmentCandidate p = true
  | [], _, _, h => Option.noConfusion h
  | q :: ps, bt, p, h => by
    unfold firstFreeAttachment at h
    split at h
    · rcases firstFreeAttachment_some ps true p h with ⟨hm, hc⟩
      exact ⟨List.mem_cons_of_mem _ hm, hc⟩
    · split at h
      · injection h with h2
        subst h2
        exact ⟨List.mem_cons_self _ _, by assumption⟩
      · rcases firstFreeAttachment_some ps bt p h with ⟨hm, hc⟩
        exact ⟨List.mem_cons_of_mem _ hm, hc⟩

/-- C6: a message qualifies only if some header named exactly `Subject`
contains the configured substring (case-sensitively) and some part has a
non-empty filename together with an attachment content reference; in
particular a message with no such attachment part never qualifies. -/
theorem classifier_requires_subject_and_attachment
    (msg : Message) (source : Source)
    (h : qualifies msg source = true) :
    (∃ hd ∈ msg.headers, hd.name = "Subject".toList
        ∧ goContains hd.value source.subjectContains = true)
    ∧ (∃ p ∈ msg.parts, p.filename ≠ [] ∧ hasAttachRef p = true) := by
  unfold qualifies at h
  rw [Bool.and_eq_true] at h
  obtain ⟨h1, h2⟩ := h
  constructor
  · rw [Option.isSome_iff_exists] at h1
    obtain ⟨hd, hfind⟩ := h1
    have hpred := List.find?_some hfind
    have hmem := List.mem_of_find?_eq_some hfind
    rw [Bool.and_eq_true] at hpred
    exact ⟨hd, hmem, of_decide_eq_true hpred.1, hpred.2⟩
  · rw [Option.isSome_iff_exists] at h2
    obtain ⟨p, hp⟩ := h2
    rw [findParts_none_none] at hp
    obtain ⟨hm, hc⟩ := firstFreeAttachment_some msg.parts false p hp
    unfold isAttachmentCandidate at hc
    rw [Bool.and_eq_true] at hc
    exact ⟨p, hm, of_decide_eq_true hc.1, hc.2⟩

/-- A configuration rule matching subject substring `"Invoice"`, amount in
the body between `"Total: "` and `" EUR"`. -/
def srcInv : Source :=
  ⟨"Electric".toList, [], "Invoice".toList, "body".toList,
    "Total: ".toList, " EUR".toList⟩

/-- A PDF attachment part with content reference `"a1"`. -/
def attPart : MessagePart :=
  ⟨"application/pdf".toList, "f.pdf".toList, some ⟨"a1".toList, []⟩⟩

/-- An inline HTML body part whose data is the (modelled, already decoded)
body text. -/
def bodyHtmlPart : MessagePart :=
  ⟨"text/html".toList, [], some ⟨[], "Total: 12,34 EUR".toList⟩⟩

/-- A qualifying message: matching subject, HTML body part, attachment part,
fetchable attachment bytes `"PDF"`. -/
def msgQual : Message :=
  ⟨50, [⟨"Subject".toList, "My Invoice".toList⟩], [bodyHtmlPart, attPart],
    [("a1".toList, "PDF".toList)]⟩

/-- C6 witness: a concrete qualifying message indeed has a matching
`Subject` header and an attachment part. -/
theorem classifier_requires_subject_and_attachment_witness :
    qualifies msgQual srcInv = true
    ∧ ((∃ hd ∈ msgQual.headers, hd.name = "Subject".toList
          ∧ goContains hd.value srcInv.subjectContains = true)
      ∧ (∃ p ∈ msgQual.parts, p.filename ≠ [] ∧ hasAttachRef p = true)) :=
  ⟨by decide,
    classifier_requires_subject_and_attachment msgQual srcInv (by decide)⟩

/-- C9: if every message before `m` in the candidate list is skipped and `m`
succeeds with invoice `inv`, the per-rule loop returns exactly `inv` and
never looks at the messages after `m`: at most one invoice is produced per
rule and the first qualifying message wins. -/
theorem first_qualifying_message_wins (env : Env) (source : Source)
    (mstart mstop : Int) :
    ∀ (pre : List Message) (m : Message) (post : List Message)
      (inv : Invoice),
      (∀ x ∈ pre, stepMessage env source mstart mstop x = StepResult.skip) →
      stepMessage env source mstart mstop m = StepResult.success inv →
      processMessages env source mstart mstop (pre ++ m :: post)
        = RunOutcome.invoice inv
  | [], m, post, inv, _, hm => by
    simp only [List.nil_append, processMessages, hm]
  | x :: pre, m, post, inv, hpre, hm => by
    have hx := hpre x (List.mem_cons_self x pre)
    simp only [List.cons_append, processMessages, hx]
    exact first_qualifying_message_wins env source mstart mstop pre m post inv
      (fun y hy => hpre y (List.mem_cons_of_mem x hy)) hm

/-- An environment whose collaborators are concrete total functions: decoding
and unescaping are the identity and tokenization yields one text token. -/
def envBody : Env :=
  ⟨fun s => some s, fun s => [Token.text s], fun s => s, fun _ => none⟩

/-- A message with no `Subject` header at all (it is skipped). -/
def msgNoSubj : Message := ⟨10, [], [], []⟩

/-- A second qualifying message with different attachment bytes, placed after
the winner to show it is ignored. -/
def msgQual2 : Message :=
  ⟨60, [⟨"Subject".toList, "My Invoice".toList⟩], [bodyHtmlPart, attPart],
    [("a1".toList, "OTHER".toList)]⟩

/-- C9 witness: with a non-qualifying message first and a second qualifying
candidate after the winner, the loop returns the first qualifying message's
invoice (`"PDF"` bytes, 1234 cents), ignoring the later candidate. -/
theorem first_qualifying_message_wins_witness :
    processMessages envBody srcInv 0 100 [msgNoSubj, msgQual, msgQual2]
      = RunOutcome.invoice ⟨"Electric.pdf".toList, "PDF".toList, 1234⟩ :=
  first_qualifying_message_wins envBody srcInv 0 100 [msgNoSubj] msgQual
    [msgQual2] ⟨"Electric.pdf".toList, "PDF".toList, 1234⟩
    (fun x hx => by
      have hx' := List.mem_singleton.mp hx
      subst hx'
      decide)
    (by decide)

/-- C10: when `source.Location` is neither `"body"` nor `"attachment"`, the
switch takes no branch and performs no validation, so for a message that
passes classification and attachment fetch the step is exactly the amount
parser run on the empty extracted-text string (here ending in a Go panic or
an extraction error, never a configuration error). -/
theorem unknown_location_empty_parser_input (env : Env) (source : Source)
    (mstart mstop : Int) (msg : Message) (hd : Header) (ap : MessagePart)
    (apb : PartBody) (bytes : List Char)
    (hw : outsideWindow msg.internalDate mstart mstop = false)
    (hs : findSubjectHeader msg.headers source.subjectContains = some hd)
    (ha : (findParts msg.parts none none).2 = some ap)
    (hb : ap.body = some apb)
    (hf : lookupAttachment msg.attachments apb.attachmentId = some bytes)
    (hl1 : source.location ≠ "body".toList)
    (hl2 : source.location ≠ "attachment".toList) :
    stepMessage env source mstart mstop msg
      = stepOfPrice
          (extractPriceBetweenTwoStrings [] source.stringBeforePrice
            source.stringAfterPrice)
          (source.billName ++ ".pdf".toList) bytes := by
  unfold stepMessage
  rw [hw]
  simp only [Bool.false_eq_true, if_false, hs, ha, hb, hf]
  unfold invoiceTextFor
  rw [if_neg hl1, if_neg hl2]

/-- A rule whose location is the unsupported string `"weird"`. -/
def srcWeird : Source :=
  ⟨"bill".toList, [], "Invoice".toList, "weird".toList,
    "A".toList, "B".toList⟩

/-- A message passing classification whose only part is the attachment. -/
def msgW10 : Message :=
  ⟨50, [⟨"Subject".toList, "My Invoice".toList⟩], [attPart],
    [("a1".toList, "B".toList)]⟩

/-- C10 witness: with location `"weird"` the step equals the parser applied
to the empty string. -/
theorem unknown_location_empty_parser_input_witness :
    stepMessage envTriv srcWeird 0 100 msgW10
      = stepOfPrice
          (extractPriceBetweenTwoStrings [] "A".toList "B".toList)
          ("bill".toList ++ ".pdf".toList) "B".toList :=
  unknown_location_empty_parser_input envTriv srcWeird 0 100 msgW10
    ⟨"Subject".toList, "My Invoice".toList⟩ attPart ⟨"a1".toList, []⟩
    "B".toList (by decide) (by decide) (by decide) (by decide) (by decide)
    (by decide) (by decide)
